import Mathlib

/-!
Verification of the core chunking, filtering, parsing and report-rendering
logic of the `ai-pr-reviewer` pipeline (src/core/chunker.py,
src/core/reviewer.py, src/core/responder.py, src/utils/filters.py).

Python strings are modelled as lists of characters (`Str`), and the Python
string primitives used by the source (`str.split`, `str.join`, `str.strip`,
`str.rstrip` with a character set, `str.startswith`, `str.lower`) are given
direct executable definitions below.  Each Python function under analysis is
then translated clause-for-clause into a Lean function over this model.
-/

/-- A Python string, modelled as its list of characters. -/
abbrev Str := List Char

/-- Python `s.split(c)` for a single-character separator: splitting the empty
string yields `[""]`, and separators at the ends produce empty fields, exactly
as in Python. -/
def splitOnChar (c : Char) : Str → List Str
  | [] => [[]]
  | x :: xs =>
    let r := splitOnChar c xs
    if x == c then
      [] :: r
    else
      match r with
      | [] => [[x]]
      | h :: t => (x :: h) :: t

/-- Python `c.join(parts)` for a single-character separator. -/
def joinWith (c : Char) : List Str → Str
  | [] => []
  | [s] => s
  | s :: t :: rest => s ++ c :: joinWith c (t :: rest)

/-- Python `s.startswith(p)`. -/
def strStartsWith : Str → Str → Bool
  | _, [] => true
  | [], _ :: _ => false
  | c :: cs, p :: ps => c == p && strStartsWith cs ps

/-- Python `s.endswith(p)`. -/
def strEndsWith (s p : Str) : Bool :=
  strStartsWith s.reverse p.reverse

/-- The characters Python `str.strip()` removes (ASCII whitespace). -/
def pySpaceChars : Str := [' ', '\t', '\n', '\r', '\x0b', '\x0c']

/-- Python `s.lstrip(set)`: drop the maximal leading run of characters from
`set`. -/
def lstripSet (set : Str) (s : Str) : Str :=
  s.dropWhile (fun c => set.contains c)

/-- Python `s.rstrip(set)`: drop the maximal trailing run of characters from
`set`.  Note: the argument is a character SET, not a suffix. -/
def rstripSet (set : Str) (s : Str) : Str :=
  (lstripSet set s.reverse).reverse

/-- Python `s.strip(set)`. -/
def stripSet (set : Str) (s : Str) : Str :=
  rstripSet set (lstripSet set s)

/-- Python `s.strip()` (whitespace on both ends). -/
def pyStrip (s : Str) : Str :=
  stripSet pySpaceChars s

/-- Python `s.lower()` (adequate for the ASCII extensions in the table). -/
def lowerStr (s : Str) : Str :=
  s.map Char.toLower

/-! ## src/utils/filters.py -/

/-- `PurePosixPath(file_path).name` for the relative paths GitHub reports:
the last nonempty `/`-separated component. -/
def pathName (file_path : Str) : Str :=
  (((splitOnChar '/' file_path).filter (fun comp => !comp.isEmpty)).getLast?).getD []

/-- `str(parent) for parent in PurePosixPath(file_path).parents` for relative
paths: the proper ancestor prefixes, longest first, ending with `"."`. -/
def pathParents (file_path : Str) : List Str :=
  let comps := (splitOnChar '/' file_path).filter (fun comp => !comp.isEmpty)
  (List.range comps.length).reverse.map
    (fun k => if k = 0 then ['.'] else joinWith '/' (comps.take k))

/-- The expression `pattern.rstrip('/**')` from `should_skip_file`'s
ancestor-directory check (src/utils/filters.py line 33).  Python `rstrip`
treats its argument as a character set, so this removes the maximal trailing
run of `'/'` and `'*'` characters. -/
def ancestorPatternTransform (pat : Str) : Str :=
  rstripSet ['/', '*'] pat

/-- `should_skip_file(file_path, skip_patterns)`, parameterised by the glob
matcher `fnm` standing for `fnmatch.fnmatch` (its internals are irrelevant to
the claims below).  The source returns `True` at the first pattern that
matches the bare name, the full path, or — after `rstrip('/**')` — any
ancestor directory, else `False`. -/
def should_skip_file (fnm : Str → Str → Bool) (file_path : Str)
    (skip_patterns : List Str) : Bool :=
  skip_patterns.any (fun pat =>
    fnm (pathName file_path) pat ||
    fnm file_path pat ||
    (pathParents file_path).any (fun par => fnm par (ancestorPatternTransform pat)))

/-- `PurePosixPath(file_path).suffix`: the extension (with dot) of the final
component; empty when the name has no dot, starts with its only dot, or ends
with its last dot. -/
def pathSuffix (file_path : Str) : Str :=
  let name := pathName file_path
  let i := (name.reverse.takeWhile (fun c => c != '.')).length
  if i < name.length ∧ i < name.length - 1 ∧ 0 < i then
    name.drop (name.length - 1 - i)
  else
    []

/-- The `extension_map` literal of `get_file_language`. -/
def extension_map : List (Str × Str) :=
  [(".py".toList, "Python".toList),
   (".js".toList, "JavaScript".toList),
   (".ts".toList, "TypeScript".toList),
   (".tsx".toList, "TypeScript React".toList),
   (".jsx".toList, "JavaScript React".toList),
   (".java".toList, "Java".toList),
   (".go".toList, "Go".toList),
   (".rs".toList, "Rust".toList),
   (".rb".toList, "Ruby".toList),
   (".php".toList, "PHP".toList),
   (".cs".toList, "C#".toList),
   (".cpp".toList, "C++".toList),
   (".c".toList, "C".toList),
   (".h".toList, "C/C++ Header".toList),
   (".swift".toList, "Swift".toList),
   (".kt".toList, "Kotlin".toList),
   (".scala".toList, "Scala".toList),
   (".sql".toList, "SQL".toList),
   (".sh".toList, "Shell".toList),
   (".yml".toList, "YAML".toList),
   (".yaml".toList, "YAML".toList),
   (".json".toList, "JSON".toList),
   (".xml".toList, "XML".toList),
   (".html".toList, "HTML".toList),
   (".css".toList, "CSS".toList),
   (".scss".toList, "SCSS".toList),
   (".md".toList, "Markdown".toList)]

/-- Association-list lookup mirroring `dict.get(key, default)`. -/
def tableGet (table : List (Str × Str)) (key : Str) (dflt : Str) : Str :=
  match table.find? (fun kv => kv.1 == key) with
  | some kv => kv.2
  | none => dflt

/-- `get_file_language(file_path)`: look up the lowercased extension in the
fixed table, defaulting to `"Unknown"`. -/
def get_file_language (file_path : Str) : Str :=
  tableGet extension_map (lowerStr (pathSuffix file_path)) ("Unknown".toList)

/-! ## src/core/chunker.py -/

/-- One element of the `files` list handed to `chunk_pr_files`: the fields
the chunker reads from each PR file dictionary.  `patch` is `none` when the
key is absent or `None` (binary files); `file.get('patch')` is also falsy for
an empty patch string. -/
structure FileChange where
  filename : Str
  status : Str
  additions : Nat
  deletions : Nat
  changes : Nat
  patch : Option Str
  deriving Repr, DecidableEq

/-- Truthiness of `file.get('patch')`. -/
def patchTruthy : Option Str → Bool
  | none => false
  | some p => !p.isEmpty

/-- The chunk dictionary built for one surviving file. -/
structure Chunk where
  file_path : Str
  file_language : Str
  file_status : Str
  additions : Nat
  deletions : Nat
  patch : Str
  pr_title : Str
  pr_description : Str
  deriving Repr, DecidableEq

/-- The chunk `chunk_pr_files` builds for file `f` (source lines 58-67). -/
def mkChunk (f : FileChange) (pr_title pr_description : Str) : Chunk :=
  { file_path := f.filename
    file_language := get_file_language f.filename
    file_status := f.status
    additions := f.additions
    deletions := f.deletions
    patch := f.patch.getD []
    pr_title := pr_title
    pr_description := pr_description }

/-- `DiffChunker.chunk_pr_files`: walk the files in order, skip a file when
its name matches a skip pattern, when it has no (truthy) patch, or when its
change count exceeds 500; otherwise emit its chunk.  `fnm` is the glob
matcher used by `should_skip_file`, `skip_patterns` the chunker's
configured patterns. -/
def chunk_pr_files (fnm : Str → Str → Bool) (skip_patterns : List Str)
    (files : List FileChange) (pr_title pr_description : Str) : List Chunk :=
  match files with
  | [] => []
  | f :: rest =>
    if should_skip_file fnm f.filename skip_patterns then
      chunk_pr_files fnm skip_patterns rest pr_title pr_description
    else if !patchTruthy f.patch then
      chunk_pr_files fnm skip_patterns rest pr_title pr_description
    else if f.changes > 500 then
      chunk_pr_files fnm skip_patterns rest pr_title pr_description
    else
      mkChunk f pr_title pr_description ::
        chunk_pr_files fnm skip_patterns rest pr_title pr_description

/-- The loop body of `split_large_patch` (source lines 105-116): group the
lines into hunks, starting a new hunk at each `@@` line once the current
hunk is nonempty; the final nonempty hunk is flushed after the loop. -/
def splitHunksAux (current : List Str) : List Str → List (List Str)
  | [] => if current.isEmpty then [] else [current]
  | l :: ls =>
    if strStartsWith l ("@@".toList) && !current.isEmpty then
      current :: splitHunksAux [l] ls
    else
      splitHunksAux (current ++ [l]) ls

/-- `DiffChunker.split_large_patch`: return the patch whole when its line
count is at most `max_lines`, else the `@@`-delimited hunks, each re-joined
with newlines. -/
def split_large_patch (patch : Str) (max_lines : Nat) : List Str :=
  let lines := splitOnChar '\n' patch
  if lines.length ≤ max_lines then
    [patch]
  else
    (splitHunksAux [] lines).map (joinWith '\n')

/-! ## src/core/reviewer.py -/

/-- One element of the list `review_all_chunks` returns. -/
structure RawReview where
  file_path : Str
  file_language : Str
  review : Str
  deriving Repr, DecidableEq

/-- The error placeholder `f"Error reviewing {chunk['file_path']}: {str(e)}"`
returned by `review_chunk`'s `except` clause. -/
def reviewErrorText (file_path failure : Str) : Str :=
  "Error reviewing ".toList ++ file_path ++ ": ".toList ++ failure

/-- `LLMReviewer.review_chunk`, with the chat-completion endpoint abstracted
as `complete : Chunk → Except Str Str` (error message, or generated review
text).  A successful call returns the generated text; any exception is caught
and converted to the literal error placeholder. -/
def review_chunk (complete : Chunk → Except Str Str) (chunk : Chunk) : Str :=
  match complete chunk with
  | Except.ok text => text
  | Except.error e => reviewErrorText chunk.file_path e

/-- `LLMReviewer.review_all_chunks`: one result dictionary per chunk, in
order. -/
def review_all_chunks (complete : Chunk → Except Str Str)
    (chunks : List Chunk) : List RawReview :=
  chunks.map (fun c =>
    { file_path := c.file_path
      file_language := c.file_language
      review := review_chunk complete c })

/-! ## src/core/responder.py — ResponseFormatter._parse_review -/

/-- The five recognized section keys. -/
inductive SectionKey
  | PR_SUMMARY
  | MAJOR_ISSUES
  | MINOR_ISSUES
  | TEST_SUGGESTIONS
  | OVERALL_ASSESSMENT
  deriving Repr, DecidableEq

/-- Header detection on one (already stripped) line, in the source's
`if`/`elif` order. -/
def headerOf (line : Str) : Option SectionKey :=
  if strStartsWith line ("PR_SUMMARY:".toList) then some SectionKey.PR_SUMMARY
  else if strStartsWith line ("MAJOR_ISSUES:".toList) then some SectionKey.MAJOR_ISSUES
  else if strStartsWith line ("MINOR_ISSUES:".toList) then some SectionKey.MINOR_ISSUES
  else if strStartsWith line ("TEST_SUGGESTIONS:".toList) then some SectionKey.TEST_SUGGESTIONS
  else if strStartsWith line ("OVERALL_ASSESSMENT:".toList) then some SectionKey.OVERALL_ASSESSMENT
  else none

/-- The `sections` dictionary before list post-processing: the committed
text per key, absent if the header never appeared. -/
structure RawSections where
  pr_summary : Option Str
  major_issues : Option Str
  minor_issues : Option Str
  test_suggestions : Option Str
  overall_assessment : Option Str
  deriving Repr, DecidableEq

/-- The empty `sections` dictionary. -/
def RawSections.empty : RawSections :=
  { pr_summary := none, major_issues := none, minor_issues := none,
    test_suggestions := none, overall_assessment := none }

/-- `sections[key] = value`. -/
def RawSections.set (s : RawSections) (k : SectionKey) (v : Str) : RawSections :=
  match k with
  | SectionKey.PR_SUMMARY => { s with pr_summary := some v }
  | SectionKey.MAJOR_ISSUES => { s with major_issues := some v }
  | SectionKey.MINOR_ISSUES => { s with minor_issues := some v }
  | SectionKey.TEST_SUGGESTIONS => { s with test_suggestions := some v }
  | SectionKey.OVERALL_ASSESSMENT => { s with overall_assessment := some v }

/-- `sections.get(key)`. -/
def RawSections.get (s : RawSections) : SectionKey → Option Str
  | SectionKey.PR_SUMMARY => s.pr_summary
  | SectionKey.MAJOR_ISSUES => s.major_issues
  | SectionKey.MINOR_ISSUES => s.minor_issues
  | SectionKey.TEST_SUGGESTIONS => s.test_suggestions
  | SectionKey.OVERALL_ASSESSMENT => s.overall_assessment

/-- Committing a section: `sections[current_section] =
'\n'.join(current_content).strip()`. -/
def commitSection (s : RawSections) (k : SectionKey) (content : List Str) :
    RawSections :=
  s.set k (pyStrip (joinWith '\n' content))

/-- The per-line step of `_parse_review`'s loop.  The raw line is stripped
first; a header line commits the active section (if any) and opens the named
one; a non-empty line is appended to the active section's content; everything
else is discarded. -/
def parseReviewStep (st : RawSections × Option SectionKey × List Str)
    (rawLine : Str) : RawSections × Option SectionKey × List Str :=
  let line := pyStrip rawLine
  match headerOf line with
  | some k =>
    match st.2.1 with
    | some cur => (commitSection st.1 cur st.2.2, some k, [])
    | none => (st.1, some k, [])
  | none =>
    match st.2.1 with
    | some _ => if line.isEmpty then st else (st.1, st.2.1, st.2.2 ++ [line])
    | none => st

/-- The loop of `_parse_review` over `review_text.split('\n')`, followed by
the final commit of the still-active section. -/
def parseRawSections (review_text : Str) : RawSections :=
  let st := (splitOnChar '\n' review_text).foldl parseReviewStep
    (RawSections.empty, none, [])
  match st.2.1 with
  | some cur => commitSection st.1 cur st.2.2
  | none => st.1

/-- The list post-processing applied to a committed section text
(source line 123):
`[item.strip('- ').strip() for item in text.split('\n') if item.strip().startswith('-')]`. -/
def parseListItems (text : Str) : List Str :=
  ((splitOnChar '\n' text).filter
      (fun item => strStartsWith (pyStrip item) ['-'])).map
    (fun item => pyStrip (stripSet ['-', ' '] item))

/-- The final result of `_parse_review`: scalar sections keep their committed
text; each of the three list sections, when present, is replaced by its
bullet list (`items if items else []` leaves the — possibly empty — list). -/
structure ParsedReview where
  pr_summary : Option Str
  major_issues : Option (List Str)
  minor_issues : Option (List Str)
  test_suggestions : Option (List Str)
  overall_assessment : Option Str
  deriving Repr, DecidableEq

/-- `ResponseFormatter._parse_review`. -/
def parse_review (review_text : Str) : ParsedReview :=
  let s := parseRawSections review_text
  { pr_summary := s.pr_summary
    major_issues := s.major_issues.map parseListItems
    minor_issues := s.minor_issues.map parseListItems
    test_suggestions := s.test_suggestions.map parseListItems
    overall_assessment := s.overall_assessment }

/-- The ParsedReview with every field absent. -/
def ParsedReview.empty : ParsedReview :=
  { pr_summary := none, major_issues := none, minor_issues := none,
    test_suggestions := none, overall_assessment := none }

/-! ## src/core/responder.py — ResponseFormatter._build_comment -/

/-- The `pr_data` fields `_build_comment` interpolates. -/
structure PRData where
  number : Nat
  title : Str
  author : Str
  changed_files : Nat
  additions : Nat
  deletions : Nat
  deriving Repr, DecidableEq

/-- Decimal rendering of a number for the f-string interpolations. -/
def natStr (n : Nat) : Str :=
  (Nat.repr n).toList

/-- The fixed header block of `comment_parts` (source lines 153-163);
`timestamp` stands for the `datetime.now().strftime(...)` result, which is
ambient input, not data computed from the arguments. -/
def headerParts (pr : PRData) (timestamp : Str) : List Str :=
  ["# 🤖 AI Code Review".toList,
   [],
   "**PR**: #".toList ++ natStr pr.number ++ " - ".toList ++ pr.title,
   "**Author**: @".toList ++ pr.author,
   "**Files Changed**: ".toList ++ natStr pr.changed_files ++ " (+".toList ++
     natStr pr.additions ++ " -".toList ++ natStr pr.deletions ++ ")".toList,
   "**Reviewed**: ".toList ++ timestamp,
   [],
   "---".toList,
   []]

/-- The fixed "no issues found" block (source lines 203-208). -/
def noIssuesParts : List Str :=
  ["## ✅ No Issues Found".toList,
   [],
   "The code looks good! No major issues or suggestions at this time.".toList,
   []]

/-- The fixed footer block (source lines 211-215). -/
def footerParts : List Str :=
  ["---".toList,
   [],
   "*This review was generated by AI. Please use your judgment and verify suggestions.*".toList]

/-- The lines one `comment_parts.extend([...])` contributes for a list-valued
section: header line, blank, the items spread, blank — or nothing when the
list is empty. -/
def sectionFor (header : Str) (items : List Str) : List Str :=
  if items.isEmpty then [] else [header, []] ++ items ++ [[]]

/-- `ResponseFormatter._build_comment` up to the final join: the
`comment_parts` list, built by the source's sequence of conditional
`extend`s.  `summaries` is received (as in the source signature) and, exactly
as in the source body, never used. -/
def build_comment_parts (pr : PRData) (timestamp : Str) (summaries : List Str)
    (major_issues minor_issues test_suggestions assessments : List Str) :
    List Str :=
  let ps := headerParts pr timestamp
  let ps := if !major_issues.isEmpty then
      ps ++ ["## 🔴 Major Issues".toList, []] ++ major_issues ++ [[]]
    else ps
  let ps := if !minor_issues.isEmpty then
      ps ++ ["## 🟡 Minor Issues & Suggestions".toList, []] ++ minor_issues ++ [[]]
    else ps
  let ps := if !test_suggestions.isEmpty then
      ps ++ ["## 🧪 Test Suggestions".toList, []] ++ test_suggestions ++ [[]]
    else ps
  let ps := if !assessments.isEmpty then
      ps ++ ["## 📊 Overall Assessment".toList, []] ++ assessments ++ [[]]
    else ps
  let ps := if major_issues.isEmpty && minor_issues.isEmpty &&
      test_suggestions.isEmpty then
      ps ++ noIssuesParts
    else ps
  ps ++ footerParts

/-- `ResponseFormatter._build_comment`: the joined markdown comment. -/
def build_comment (pr : PRData) (timestamp : Str) (summaries : List Str)
    (major_issues minor_issues test_suggestions assessments : List Str) : Str :=
  joinWith '\n' (build_comment_parts pr timestamp summaries major_issues
    minor_issues test_suggestions assessments)

/-! ## Helper lemmas about the string primitives -/

theorem splitOnChar_ne_nil (c : Char) (s : Str) : splitOnChar c s ≠ [] := by
  cases s with
  | nil => simp [splitOnChar]
  | cons x xs =>
    simp only [splitOnChar]
    split
    · simp
    · cases h : splitOnChar c xs <;> simp

theorem joinWith_cons_cons (c : Char) (a b : Str) (rest : List Str) :
    joinWith c (a :: b :: rest) = a ++ c :: joinWith c (b :: rest) := rfl

theorem joinWith_splitOnChar (c : Char) (s : Str) :
    joinWith c (splitOnChar c s) = s := by
  induction s with
  | nil => rfl
  | cons x xs ih =>
    rcases hr : splitOnChar c xs with _ | ⟨h, t⟩
    · exact absurd hr (splitOnChar_ne_nil c xs)
    · rw [hr] at ih
      have hdef : splitOnChar c (x :: xs) =
          if x == c then [] :: h :: t else (x :: h) :: t := by
        simp only [splitOnChar, hr]
      by_cases hx : (x == c) = true
      · rw [hdef, if_pos hx, joinWith_cons_cons, List.nil_append, ih,
          eq_of_beq hx]
      · rw [hdef, if_neg hx]
        cases t with
        | nil =>
          simp only [joinWith] at ih ⊢
          rw [ih]
        | cons y t' =>
          rw [joinWith_cons_cons] at ih ⊢
          simp only [List.cons_append, ih]

theorem joinWith_append (c : Char) (a : List Str) :
    ∀ b : List Str, a ≠ [] → b ≠ [] →
      joinWith c (a ++ b) = joinWith c a ++ c :: joinWith c b := by
  induction a with
  | nil => intro b ha _; exact absurd rfl ha
  | cons x a ih =>
    intro b _ hb
    cases a with
    | nil =>
      cases b with
      | nil => exact absurd rfl hb
      | cons y b' => rfl
    | cons z a' =>
      have h1 : joinWith c ((x :: z :: a') ++ b) =
          x ++ c :: joinWith c ((z :: a') ++ b) := rfl
      rw [h1, ih b (by simp) hb]
      simp only [joinWith_cons_cons, List.cons_append, List.append_assoc]

theorem joinWith_map_flatten (c : Char) (hs : List (List Str)) :
    (∀ h ∈ hs, h ≠ []) →
      joinWith c (hs.map (joinWith c)) = joinWith c hs.flatten := by
  induction hs with
  | nil => intro _; rfl
  | cons h hs ih =>
    intro hne
    cases hs with
    | nil => simp [joinWith, List.flatten]
    | cons h' hs' =>
      have hh : h ≠ [] := hne h (by simp)
      have hh' : h' ≠ [] := hne h' (by simp)
      have hflat : (h' :: hs').flatten ≠ [] := by
        cases h' with
        | nil => exact absurd rfl hh'
        | cons a b => simp [List.flatten]
      have e1 : joinWith c (List.map (joinWith c) (h :: h' :: hs')) =
          joinWith c h ++ c :: joinWith c (List.map (joinWith c) (h' :: hs')) := by
        rw [List.map_cons, List.map_cons, joinWith_cons_cons]
      have e2 : (h :: h' :: hs').flatten = h ++ (h' :: hs').flatten := rfl
      rw [e1, ih (fun g hg => hne g (List.mem_cons_of_mem _ hg)), e2,
        joinWith_append c h _ hh hflat]

/-! ## Structural lemmas about splitHunksAux -/

theorem splitHunksAux_flatten (ls : List Str) :
    ∀ current : List Str, (splitHunksAux current ls).flatten = current ++ ls := by
  induction ls with
  | nil =>
    intro current
    by_cases h : current.isEmpty
    · simp [splitHunksAux, h, List.isEmpty_iff.mp h]
    · simp [splitHunksAux, h]
  | cons l ls ih =>
    intro current
    by_cases h : (strStartsWith l ("@@".toList) && !current.isEmpty) = true
    · simp only [splitHunksAux, h, if_pos, List.flatten_cons, ih]
      rfl
    · simp only [splitHunksAux, h, if_neg, Bool.false_eq_true,
        not_false_iff, ih]
      simp

theorem splitHunksAux_mem_ne_nil (ls : List Str) :
    ∀ (current : List Str) (h : List Str),
      h ∈ splitHunksAux current ls → h ≠ [] := by
  induction ls with
  | nil =>
    intro current h hm
    by_cases hc : current.isEmpty
    · simp [splitHunksAux, hc] at hm
    · simp only [splitHunksAux, hc, Bool.false_eq_true, if_neg,
        not_false_iff, List.mem_singleton] at hm
      subst hm
      exact fun he => hc (by simp [he])
  | cons l ls ih =>
    intro current h hm
    by_cases hc : (strStartsWith l ("@@".toList) && !current.isEmpty) = true
    · simp only [splitHunksAux, hc, if_pos, List.mem_cons] at hm
      rcases hm with rfl | hm
      · intro he
        rw [he] at hc
        simp at hc
      · exact ih [l] h hm
    · simp only [splitHunksAux, hc, Bool.false_eq_true, if_neg,
        not_false_iff] at hm
      exact ih (current ++ [l]) h hm

theorem splitHunksAux_head_marker (ls : List Str) :
    ∀ (l0 : Str) (t0 : List Str), strStartsWith l0 ("@@".toList) = true →
      ∀ h ∈ splitHunksAux (l0 :: t0) ls,
        ∃ (a : Str) (b : List Str), h = a :: b ∧ strStartsWith a ("@@".toList) = true := by
  induction ls with
  | nil =>
    intro l0 t0 h0 h hm
    simp only [splitHunksAux, List.isEmpty_cons, Bool.false_eq_true, if_neg,
      not_false_iff, List.mem_singleton] at hm
    exact ⟨l0, t0, hm, h0⟩
  | cons l ls ih =>
    intro l0 t0 h0 h hm
    by_cases hc : (strStartsWith l ("@@".toList) && !(l0 :: t0).isEmpty) = true
    · simp only [splitHunksAux, hc, if_pos, List.mem_cons] at hm
      rcases hm with rfl | hm
      · exact ⟨l0, t0, rfl, h0⟩
      · exact ih l [] (Bool.and_eq_true_iff.mp hc).1 h hm
    · simp only [splitHunksAux, hc, Bool.false_eq_true, if_neg,
        not_false_iff] at hm
      exact ih l0 (t0 ++ [l]) h0 h (by simpa using hm)

theorem splitHunksAux_tail_heads (ls : List Str) :
    ∀ (current : List Str) (i : Nat) (h : List Str),
      (splitHunksAux current ls).get? (i + 1) = some h →
        ∃ (a : Str) (b : List Str), h = a :: b ∧ strStartsWith a ("@@".toList) = true := by
  induction ls with
  | nil =>
    intro current i h hm
    by_cases hc : current.isEmpty
    · simp [splitHunksAux, hc] at hm
    · simp [splitHunksAux, hc] at hm
  | cons l ls ih =>
    intro current i h hm
    by_cases hc : (strStartsWith l ("@@".toList) && !current.isEmpty) = true
    · simp only [splitHunksAux, hc, if_pos, List.get?_cons_succ] at hm
      have hmem : h ∈ splitHunksAux [l] ls := List.get?_mem hm
      exact splitHunksAux_head_marker ls l [] (Bool.and_eq_true_iff.mp hc).1 h hmem
    · simp only [splitHunksAux, hc, Bool.false_eq_true, if_neg,
        not_false_iff] at hm
      exact ih (current ++ [l]) i h hm

theorem splitHunksAux_no_interior_marker (ls : List Str) :
    ∀ current : List Str,
      (∀ x ∈ current.drop 1, strStartsWith x ("@@".toList) = false) →
      ∀ h ∈ splitHunksAux current ls,
        ∀ x ∈ h.drop 1, strStartsWith x ("@@".toList) = false := by
  induction ls with
  | nil =>
    intro current hcur h hm
    by_cases hc : current.isEmpty
    · simp [splitHunksAux, hc] at hm
    · simp only [splitHunksAux, hc, Bool.false_eq_true, if_neg,
        not_false_iff, List.mem_singleton] at hm
      subst hm
      exact hcur
  | cons l ls ih =>
    intro current hcur h hm
    by_cases hc : (strStartsWith l ("@@".toList) && !current.isEmpty) = true
    · simp only [splitHunksAux, hc, if_pos, List.mem_cons] at hm
      rcases hm with rfl | hm
      · exact hcur
      · exact ih [l] (by simp) h hm
    · simp only [splitHunksAux, hc, Bool.false_eq_true, if_neg,
        not_false_iff] at hm
      refine ih (current ++ [l]) ?_ h hm
      intro x hx
      cases current with
      | nil => simp at hx
      | cons c0 cs =>
        simp only [List.cons_append, List.drop_succ_cons, List.drop_zero] at hx ⊢
        rcases List.mem_append.mp hx with hx | hx
        · exact hcur x (by simpa using hx)
        · have hxl : x = l := by simpa using hx
          subst hxl
          cases hA : strStartsWith x ("@@".toList) with
          | false => rfl
          | true => exact absurd (by rw [hA]; rfl) hc

/-- C10: joining the segments returned by `split_large_patch` with a single
newline between consecutive segments reconstructs the original patch string
exactly — no line is lost, duplicated, or reordered. -/
theorem split_large_patch_join_roundtrip (patch : Str) (max_lines : Nat) :
    joinWith '\n' (split_large_patch patch max_lines) = patch := by
  unfold split_large_patch
  by_cases h : (splitOnChar '\n' patch).length ≤ max_lines
  · rw [if_pos h]
    rfl
  · rw [if_neg h,
      joinWith_map_flatten '\n' _ (splitHunksAux_mem_ne_nil _ []),
      splitHunksAux_flatten, List.nil_append, joinWith_splitOnChar]

/-- A concrete 250-line unified diff with exactly 3 `@@` hunk markers, the
first line being a marker (as in the `patch` field GitHub returns). -/
def demoPatch : Str :=
  joinWith '\n'
    (("@@ -1,83 +1,83 @@".toList :: List.replicate 83 (" context".toList)) ++
     ("@@ -101,83 +101,83 @@".toList :: List.replicate 83 (" context".toList)) ++
     ("@@ -201,80 +201,80 @@".toList :: List.replicate 81 (" context".toList)))

/-- C4: `split_large_patch` returns the patch whole (a one-element list)
whenever its line count is at most `max_lines`; otherwise it splits exactly
at the lines beginning with `@@`: the returned segments are the newline-joins
of a partition of the line list (so every segment's lines are consecutive
original lines up to, and not including, the next `@@` line, and a leading
segment before the first marker is preserved), every segment after the first
starts with an `@@` line, and no segment contains an `@@` line after its
first line.  In particular the concrete 250-line patch `demoPatch`, which
contains exactly 3 `@@` markers (its first line being one), splits with
`max_lines = 100` into exactly 3 segments, each starting with `@@`. -/
theorem split_large_patch_spec :
    (∀ (patch : Str) (max_lines : Nat),
        (splitOnChar '\n' patch).length ≤ max_lines →
        split_large_patch patch max_lines = [patch]) ∧
    (∀ (patch : Str) (max_lines : Nat),
        max_lines < (splitOnChar '\n' patch).length →
        ∃ hunks : List (List Str),
          split_large_patch patch max_lines = hunks.map (joinWith '\n') ∧
          hunks.flatten = splitOnChar '\n' patch ∧
          (∀ (i : Nat) (h : List Str), hunks.get? (i + 1) = some h →
            ∃ (a : Str) (b : List Str), h = a :: b ∧
              strStartsWith a ("@@".toList) = true) ∧
          (∀ h ∈ hunks, ∀ x ∈ List.drop 1 h,
            strStartsWith x ("@@".toList) = false) ∧
          (∀ h ∈ hunks, h ≠ [])) ∧
    (splitOnChar '\n' demoPatch).length = 250 ∧
    ((splitOnChar '\n' demoPatch).filter
      (fun l => strStartsWith l ("@@".toList))).length = 3 ∧
    (split_large_patch demoPatch 100).length = 3 ∧
    (split_large_patch demoPatch 100).all
      (fun seg => strStartsWith seg ("@@".toList)) = true := by
  refine ⟨?_, ?_, ?_, ?_, ?_, ?_⟩
  · intro patch max_lines h
    unfold split_large_patch
    rw [if_pos h]
  · intro patch max_lines h
    refine ⟨splitHunksAux [] (splitOnChar '\n' patch), ?_, ?_, ?_, ?_, ?_⟩
    · unfold split_large_patch
      rw [if_neg (by omega)]
    · simpa using splitHunksAux_flatten (splitOnChar '\n' patch) []
    · exact fun i hk => splitHunksAux_tail_heads (splitOnChar '\n' patch) [] i hk
    · exact splitHunksAux_no_interior_marker (splitOnChar '\n' patch) [] (by simp)
    · exact splitHunksAux_mem_ne_nil (splitOnChar '\n' patch) []
  · set_option maxRecDepth 8000 in decide
  · set_option maxRecDepth 8000 in decide
  · set_option maxRecDepth 8000 in decide
  · set_option maxRecDepth 8000 in decide

set_option maxRecDepth 8000 in
/-- Witness for the two conditional clauses of `split_large_patch_spec`,
at a 1-line patch (below the limit) and at `demoPatch` (above it). -/
theorem split_large_patch_spec_witness :
    ((splitOnChar '\n' (" context".toList)).length ≤ 100 ∧
      split_large_patch (" context".toList) 100 = [" context".toList]) ∧
    (100 < (splitOnChar '\n' demoPatch).length ∧
      ∃ hunks : List (List Str),
        split_large_patch demoPatch 100 = hunks.map (joinWith '\n') ∧
        hunks.flatten = splitOnChar '\n' demoPatch ∧
        (∀ (i : Nat) (h : List Str), hunks.get? (i + 1) = some h →
          ∃ (a : Str) (b : List Str), h = a :: b ∧
            strStartsWith a ("@@".toList) = true) ∧
        (∀ h ∈ hunks, ∀ x ∈ List.drop 1 h,
          strStartsWith x ("@@".toList) = false) ∧
        (∀ h ∈ hunks, h ≠ [])) := by
  constructor
  · exact ⟨by decide, split_large_patch_spec.1 (" context".toList) 100 (by decide)⟩
  · exact ⟨by decide, split_large_patch_spec.2.1 demoPatch 100 (by decide)⟩

/-- C1: for every file list (and any glob matcher and pattern set), the
chunker's output is exactly the map of `mkChunk` over the subsequence of
the input, in input order, consisting of the files that do not match any
skip pattern, have a truthy patch, and have at most 500 changes; in
particular every file with more than 500 changes is excluded. -/
theorem chunk_pr_files_is_filter (fnm : Str → Str → Bool)
    (skip_patterns : List Str) (files : List FileChange)
    (pr_title pr_description : Str) :
    chunk_pr_files fnm skip_patterns files pr_title pr_description =
      (files.filter (fun f =>
        !(should_skip_file fnm f.filename skip_patterns) &&
        patchTruthy f.patch && decide (f.changes ≤ 500))).map
        (fun f => mkChunk f pr_title pr_description) := by
  induction files with
  | nil => rfl
  | cons f rest ih =>
    by_cases h1 : should_skip_file fnm f.filename skip_patterns = true
    · simp [chunk_pr_files, h1, ih]
    · by_cases h2 : patchTruthy f.patch = true
      · by_cases h3 : f.changes > 500
        · have h3' : ¬(f.changes ≤ 500) := by omega
          simp [chunk_pr_files, h1, h2, h3, h3', ih]
        · have h3' : f.changes ≤ 500 := by omega
          simp [chunk_pr_files, h1, h2, h3, h3', ih]
      · simp [chunk_pr_files, h1, h2, ih]

/-- C3: `review_all_chunks` yields exactly one RawReview per input chunk, in
input order (element `i` of the output is built from element `i` of the
input), and whenever the completion call for a chunk fails, the failure is
absorbed: that chunk's review text is the literal
`"Error reviewing {file_path}: {failure}"` message rather than a propagated
exception (`review_chunk` is total by construction). -/
theorem review_all_chunks_spec (complete : Chunk → Except Str Str)
    (chunks : List Chunk) :
    (review_all_chunks complete chunks).length = chunks.length ∧
    (∀ i : Nat, (review_all_chunks complete chunks).get? i =
      (chunks.get? i).map (fun c =>
        { file_path := c.file_path
          file_language := c.file_language
          review := review_chunk complete c })) ∧
    (∀ (c : Chunk) (e : Str), complete c = Except.error e →
      review_chunk complete c =
        "Error reviewing ".toList ++ c.file_path ++ ": ".toList ++ e) := by
  refine ⟨?_, ?_, ?_⟩
  · simp [review_all_chunks]
  · intro i
    simp [review_all_chunks, List.get?_map]
  · intro c e he
    simp [review_chunk, he, reviewErrorText]

/-- Witness for `review_all_chunks_spec`: a completion oracle that always
fails, applied to a concrete chunk, produces the literal error message. -/
theorem review_all_chunks_spec_witness :
    (fun _ : Chunk => (Except.error ("boom".toList) : Except Str Str))
        { file_path := "a.py".toList, file_language := "Python".toList,
          file_status := "modified".toList, additions := 1, deletions := 0,
          patch := "@@".toList, pr_title := "t".toList,
          pr_description := "d".toList } = Except.error ("boom".toList) ∧
    review_chunk (fun _ => Except.error ("boom".toList))
        { file_path := "a.py".toList, file_language := "Python".toList,
          file_status := "modified".toList, additions := 1, deletions := 0,
          patch := "@@".toList, pr_title := "t".toList,
          pr_description := "d".toList } =
      "Error reviewing ".toList ++ "a.py".toList ++ ": ".toList ++ "boom".toList :=
  ⟨rfl,
   (review_all_chunks_spec (fun _ => Except.error ("boom".toList)) []).2.2
     { file_path := "a.py".toList, file_language := "Python".toList,
       file_status := "modified".toList, additions := 1, deletions := 0,
       patch := "@@".toList, pr_title := "t".toList,
       pr_description := "d".toList }
     ("boom".toList) rfl⟩

/-- C6 counterexample: the pattern `"build*"` does not end in the literal
substring `"/**"`, yet the transformation applied before the
ancestor-directory match changes it (to `"build"`): `rstrip('/**')` removes
a trailing character run, not a literal suffix, so the claim that such
patterns are used unchanged is false. -/
theorem ancestorPatternTransform_counterexample :
    strEndsWith ("build*".toList) ("/**".toList) = false ∧
    ancestorPatternTransform ("build*".toList) ≠ "build*".toList ∧
    ancestorPatternTransform ("build*".toList) = "build".toList := by
  refine ⟨rfl, ?_, rfl⟩
  decide

/-- C6 amended: the transformation applied to each pattern before the
ancestor-directory match is Python `rstrip('/**')`, which removes the
maximal trailing run of `'/'` and `'*'` characters (so a pattern ending in a
single `*`, or in `/**`, or in any mix of slashes and stars, has that whole
run removed); a pattern is used unchanged exactly when it does not end in
`'/'` or `'*'`. -/
theorem ancestorPatternTransform_spec (pat : Str) :
    ∃ junk : Str,
      pat = ancestorPatternTransform pat ++ junk ∧
      (∀ c ∈ junk, c = '/' ∨ c = '*') ∧
      (∀ c : Char, (ancestorPatternTransform pat).getLast? = some c →
        c ≠ '/' ∧ c ≠ '*') := by
  refine ⟨(pat.reverse.takeWhile (fun c => (['/', '*'] : Str).contains c)).reverse,
    ?_, ?_, ?_⟩
  · have h : pat.reverse.takeWhile (fun c => (['/', '*'] : Str).contains c) ++
        pat.reverse.dropWhile (fun c => (['/', '*'] : Str).contains c) = pat.reverse :=
      List.takeWhile_append_dropWhile (fun c => (['/', '*'] : Str).contains c)
        pat.reverse
    have h2 := congrArg List.reverse h
    rw [List.reverse_append, List.reverse_reverse] at h2
    exact h2.symm
  · intro c hc
    have hc' : c ∈ pat.reverse.takeWhile (fun c => (['/', '*'] : Str).contains c) := by
      simpa using hc
    have := List.mem_takeWhile_imp hc'
    simpa using this
  · intro c hc
    have h1 : (ancestorPatternTransform pat).getLast? =
        (pat.reverse.dropWhile (fun c => (['/', '*'] : Str).contains c)).head? := by
      simp [ancestorPatternTransform, rstripSet, lstripSet, List.getLast?_reverse]
    rw [h1] at hc
    have h2 := List.head?_dropWhile_not (fun c => (['/', '*'] : Str).contains c) pat.reverse
    rw [hc] at h2
    simp at h2
    exact h2

/-- Witness for `ancestorPatternTransform_spec` at the pattern `"dist/**"`:
the stripped pattern is `"dist"`, the removed junk is `"/**"`. -/
theorem ancestorPatternTransform_spec_witness :
    ∃ junk : Str,
      "dist/**".toList = ancestorPatternTransform ("dist/**".toList) ++ junk ∧
      (∀ c ∈ junk, c = '/' ∨ c = '*') ∧
      (∀ c : Char, (ancestorPatternTransform ("dist/**".toList)).getLast? = some c →
        c ≠ '/' ∧ c ≠ '*') :=
  ancestorPatternTransform_spec ("dist/**".toList)

/-! ## Case-folding lemmas for get_file_language -/

theorem Char_toLower_toLower (c : Char) : c.toLower.toLower = c.toLower := by
  unfold Char.toLower
  by_cases h : 65 ≤ c.toNat ∧ c.toNat ≤ 90
  · rw [if_pos h]
    have hvalid : (c.toNat + 32).isValidChar := Or.inl (by omega)
    have hval : (Char.ofNat (c.toNat + 32)).toNat = c.toNat + 32 := by
      unfold Char.ofNat
      rw [dif_pos hvalid]
      rfl
    rw [if_neg]
    rw [hval]
    omega
  · rw [if_neg h, if_neg h]

theorem lowerStr_idem (s : Str) : lowerStr (lowerStr s) = lowerStr s := by
  induction s with
  | nil => rfl
  | cons c s ih =>
    simp only [lowerStr, List.map_cons] at ih ⊢
    exact List.cons_eq_cons.mpr ⟨Char_toLower_toLower c, ih⟩

theorem Char_toLower_eq_iff (c t : Char) (h1 : ¬(65 ≤ t.toNat ∧ t.toNat ≤ 90))
    (h2 : ¬(97 ≤ t.toNat ∧ t.toNat ≤ 122)) : c.toLower = t ↔ c = t := by
  constructor
  · intro h
    unfold Char.toLower at h
    by_cases hc : 65 ≤ c.toNat ∧ c.toNat ≤ 90
    · rw [if_pos hc] at h
      have hvalid : (c.toNat + 32).isValidChar := Or.inl (by omega)
      have hval : (Char.ofNat (c.toNat + 32)).toNat = c.toNat + 32 := by
        unfold Char.ofNat
        rw [dif_pos hvalid]
        rfl
      rw [h] at hval
      exact absurd ⟨by omega, by omega⟩ h2
    · rwa [if_neg hc] at h
  · intro h
    subst h
    unfold Char.toLower
    rw [if_neg h1]

theorem Char_toLower_beq (c t : Char) (h1 : ¬(65 ≤ t.toNat ∧ t.toNat ≤ 90))
    (h2 : ¬(97 ≤ t.toNat ∧ t.toNat ≤ 122)) : (c.toLower == t) = (c == t) := by
  by_cases hct : c = t
  · subst hct
    have hfix : c.toLower = c := by
      unfold Char.toLower
      rw [if_neg h1]
    rw [hfix]
  · have h3 : ¬(c.toLower = t) := fun he =>
      hct ((Char_toLower_eq_iff c t h1 h2).mp he)
    rw [beq_eq_false_iff_ne.mpr h3, beq_eq_false_iff_ne.mpr hct]

theorem splitOnChar_cons (c x : Char) (xs : Str) :
    splitOnChar c (x :: xs) =
      if x == c then [] :: splitOnChar c xs
      else match splitOnChar c xs with
        | [] => [[x]]
        | h :: t => (x :: h) :: t := rfl

theorem splitOnChar_map_compat (c : Char) (f : Char → Char)
    (hf : ∀ x, (f x == c) = (x == c)) (s : Str) :
    splitOnChar c (s.map f) = (splitOnChar c s).map (List.map f) := by
  induction s with
  | nil => rfl
  | cons x xs ih =>
    rcases hr : splitOnChar c xs with _ | ⟨h, t⟩
    · exact absurd hr (splitOnChar_ne_nil c xs)
    · have hr' : splitOnChar c (xs.map f) = h.map f :: t.map (List.map f) := by
        rw [ih, hr, List.map_cons]
    

      rw [List.map_cons, splitOnChar_cons, splitOnChar_cons, hf x, hr, hr']
      by_cases hx : (x == c) = true
      · rw [if_pos hx, if_pos hx]
        simp [List.map_cons]
      · rw [if_neg hx, if_neg hx]
        simp [List.map_cons]

theorem pathName_lower (p : Str) : pathName (lowerStr p) = lowerStr (pathName p) := by
  unfold pathName
  rw [show lowerStr p = p.map Char.toLower from rfl,
    splitOnChar_map_compat '/' Char.toLower
      (fun x => Char_toLower_beq x '/' (by decide) (by decide)),
    List.filter_map, List.getLast?_map]
  have hpred : ((fun comp : Str => !comp.isEmpty) ∘ List.map Char.toLower) =
      (fun comp : Str => !comp.isEmpty) := by
    funext comp
    cases comp <;> simp
  rw [hpred]
  cases ((splitOnChar '/' p).filter (fun comp => !comp.isEmpty)).getLast? with
  | none => rfl
  | some v => rfl

theorem takeWhile_not_dot_lower (l : Str) :
    (l.map Char.toLower).takeWhile (fun c => c != '.') =
      (l.takeWhile (fun c => c != '.')).map Char.toLower := by
  rw [List.takeWhile_map]
  have hpred : ((fun c : Char => c != '.') ∘ Char.toLower) =
      (fun c : Char => c != '.') := by
    funext c
    simp only [Function.comp_apply, bne]
    rw [Char_toLower_beq c '.' (by decide) (by decide)]
  rw [hpred]

theorem pathSuffix_lower (p : Str) :
    pathSuffix (lowerStr p) = lowerStr (pathSuffix p) := by
  unfold pathSuffix
  dsimp only
  rw [pathName_lower p]
  have hrev : (lowerStr (pathName p)).reverse =
      (pathName p).reverse.map Char.toLower := by
    simp [lowerStr, List.map_reverse]
  rw [hrev, takeWhile_not_dot_lower, List.length_map]
  have hlen : (lowerStr (pathName p)).length = (pathName p).length := by
    simp [lowerStr]
  rw [hlen]
  by_cases hcond : (((pathName p).reverse.takeWhile (fun c => c != '.')).length <
        (pathName p).length ∧
      ((pathName p).reverse.takeWhile (fun c => c != '.')).length <
        (pathName p).length - 1 ∧
      0 < ((pathName p).reverse.takeWhile (fun c => c != '.')).length)
  · rw [if_pos hcond, if_pos hcond]
    simp [lowerStr, List.map_drop]
  · rw [if_neg hcond, if_neg hcond]
    rfl

theorem get_file_language_lower (p : Str) :
    get_file_language (lowerStr p) = get_file_language p := by
  unfold get_file_language
  rw [pathSuffix_lower, lowerStr_idem]

/-- C9: `get_file_language` returns the table entry for the lowercased
extension of the path (so two paths whose lowercased forms agree — in
particular a path and its own lowercasing — get the same language), and
returns `"Unknown"` when the lowercased extension has no table entry or the
path has no extension; concretely `"Main.JAVA"` maps to `"Java"` and
`"noext"` to `"Unknown"`. -/
theorem get_file_language_spec :
    (∀ p : Str, get_file_language (lowerStr p) = get_file_language p) ∧
    (∀ p : Str, get_file_language p =
      tableGet extension_map (lowerStr (pathSuffix p)) ("Unknown".toList)) ∧
    (∀ p : Str,
      extension_map.find? (fun kv => kv.1 == lowerStr (pathSuffix p)) = none →
      get_file_language p = "Unknown".toList) ∧
    (∀ p : Str, pathSuffix p = [] → get_file_language p = "Unknown".toList) ∧
    get_file_language ("Main.JAVA".toList) = "Java".toList ∧
    get_file_language ("noext".toList) = "Unknown".toList := by
  refine ⟨get_file_language_lower, fun p => rfl, ?_, ?_, by decide, by decide⟩
  · intro p hfind
    unfold get_file_language tableGet
    rw [hfind]
  · intro p hsuf
    unfold get_file_language
    rw [hsuf]
    decide

/-- Witness for `get_file_language_spec`: the conditional clauses applied at
`"pic.zzz"` (unknown extension) and `"noext"` (no extension). -/
theorem get_file_language_spec_witness :
    (extension_map.find?
        (fun kv => kv.1 == lowerStr (pathSuffix ("pic.zzz".toList))) = none ∧
      get_file_language ("pic.zzz".toList) = "Unknown".toList) ∧
    (pathSuffix ("noext".toList) = [] ∧
      get_file_language ("noext".toList) = "Unknown".toList) :=
  ⟨⟨by decide, get_file_language_spec.2.2.1 ("pic.zzz".toList) (by decide)⟩,
   ⟨by decide, get_file_language_spec.2.2.2.1 ("noext".toList) (by decide)⟩⟩

/-- C8: the rendered aggregate report does not depend on the collected
per-file summaries: with the change-set data, timestamp, and
issue/suggestion/assessment lists fixed, any two summaries lists produce
character-for-character identical output (`_build_comment` receives
`summaries` and never reads it). -/
theorem build_comment_summaries_independent (pr : PRData) (timestamp : Str)
    (sums1 sums2 major_issues minor_issues test_suggestions assessments :
      List Str) :
    build_comment pr timestamp sums1 major_issues minor_issues
        test_suggestions assessments =
      build_comment pr timestamp sums2 major_issues minor_issues
        test_suggestions assessments := rfl

/-- C5: the comment built by `_build_comment` decomposes as the fixed header,
then one block per list-valued section that is present exactly when its list
is non-empty, then the assessment block, then — exactly when the major,
minor, and test lists are all empty (regardless of assessments) — the fixed
"no issues found" block, then the footer.  In particular, when the three
lists are empty the comment is the header, the (possibly empty) assessment
block, the "no issues found" block and the footer, with the three issue
sections omitted. -/
theorem build_comment_sections_spec (pr : PRData) (timestamp : Str)
    (summaries major_issues minor_issues test_suggestions assessments :
      List Str) :
    (build_comment_parts pr timestamp summaries major_issues minor_issues
        test_suggestions assessments =
      headerParts pr timestamp ++
      sectionFor ("## 🔴 Major Issues".toList) major_issues ++
      sectionFor ("## 🟡 Minor Issues & Suggestions".toList) minor_issues ++
      sectionFor ("## 🧪 Test Suggestions".toList) test_suggestions ++
      sectionFor ("## 📊 Overall Assessment".toList) assessments ++
      (if major_issues.isEmpty && minor_issues.isEmpty &&
          test_suggestions.isEmpty then noIssuesParts else []) ++
      footerParts) ∧
    (major_issues = [] → minor_issues = [] → test_suggestions = [] →
      build_comment_parts pr timestamp summaries major_issues minor_issues
          test_suggestions assessments =
        headerParts pr timestamp ++
        sectionFor ("## 📊 Overall Assessment".toList) assessments ++
        noIssuesParts ++ footerParts) ∧
    (∀ (header : Str) (items : List Str), sectionFor header items = [] ↔ items = []) := by
  refine ⟨?_, ?_, ?_⟩
  · by_cases h1 : major_issues.isEmpty <;>
      by_cases h2 : minor_issues.isEmpty <;>
        by_cases h3 : test_suggestions.isEmpty <;>
          by_cases h4 : assessments.isEmpty <;>
            simp [build_comment_parts, sectionFor, h1, h2, h3, h4,
              List.append_assoc]
  · intro h1 h2 h3
    subst h1; subst h2; subst h3
    by_cases h4 : assessments.isEmpty <;>
      simp [build_comment_parts, sectionFor, h4, List.append_assoc]
  · intro header items
    cases items <;> simp [sectionFor]

/-- Witness for `build_comment_sections_spec`: with all three lists empty and
one assessment, the comment is header + assessment block + "no issues found"
block + footer. -/
theorem build_comment_sections_spec_witness :
    build_comment_parts
        { number := 7, title := "t".toList, author := "a".toList,
          changed_files := 1, additions := 2, deletions := 3 }
        ("2024-01-01 00:00:00 UTC".toList) ["s".toList] [] [] []
        ["fine".toList] =
      headerParts
        { number := 7, title := "t".toList, author := "a".toList,
          changed_files := 1, additions := 2, deletions := 3 }
        ("2024-01-01 00:00:00 UTC".toList) ++
      sectionFor ("## 📊 Overall Assessment".toList) ["fine".toList] ++
      noIssuesParts ++ footerParts :=
  (build_comment_sections_spec
    { number := 7, title := "t".toList, author := "a".toList,
      changed_files := 1, additions := 2, deletions := 3 }
    ("2024-01-01 00:00:00 UTC".toList) ["s".toList] [] [] []
    ["fine".toList]).2.1 rfl rfl rfl

/-- Helper: a fold of `parseReviewStep` over lines none of which strips to a
header line leaves the state untouched when no section is active. -/
theorem foldl_parseReviewStep_no_header (lines : List Str)
    (s : RawSections) (content : List Str)
    (h : ∀ l ∈ lines, headerOf (pyStrip l) = none) :
    lines.foldl parseReviewStep (s, none, content) = (s, none, content) := by
  induction lines with
  | nil => rfl
  | cons l ls ih =>
    have hstep : parseReviewStep (s, none, content) l = (s, none, content) := by
      unfold parseReviewStep
      dsimp only
      rw [h l (by simp)]
    rw [List.foldl_cons, hstep]
    exact ih (fun x hx => h x (by simp [hx]))

/-- C7 counterexample: the text `" PR_SUMMARY: ok"` contains no line that
(literally) begins with one of the five recognized section headers — its only
line begins with a space — yet parsing it does not leave the scalar fields
absent: the parser strips each line before matching headers, so PR_SUMMARY
becomes present (with empty committed text, since a header line's own
remainder is never captured). -/
theorem parse_review_no_header_counterexample :
    (∀ line ∈ splitOnChar '\n' (" PR_SUMMARY: ok".toList),
      headerOf line = none) ∧
    (parse_review (" PR_SUMMARY: ok".toList)).pr_summary = some [] ∧
    (parse_review (" PR_SUMMARY: ok".toList)).pr_summary ≠ none := by
  refine ⟨by decide, by decide, by decide⟩

/-- C7 amended: for every input text none of whose lines, after the parser's
per-line whitespace trim, begins with one of the five recognized section
headers, parsing returns the result with both scalar fields absent and all
three list fields absent/empty.  Parsing is a total function of the text
(never an error) and therefore deterministic: parsing the same text twice
yields identical results. -/
theorem parse_review_no_headers (text : Str)
    (h : ∀ line ∈ splitOnChar '\n' text, headerOf (pyStrip line) = none) :
    parse_review text = ParsedReview.empty := by
  unfold parse_review parseRawSections
  rw [foldl_parseReviewStep_no_header (splitOnChar '\n' text)
    RawSections.empty [] h]
  rfl

/-- Witness for `parse_review_no_headers` at the concrete header-free text
`"hello\nworld"`. -/
theorem parse_review_no_headers_witness :
    (∀ line ∈ splitOnChar '\n' ("hello\nworld".toList),
      headerOf (pyStrip line) = none) ∧
    parse_review ("hello\nworld".toList) = ParsedReview.empty :=
  ⟨by decide, parse_review_no_headers ("hello\nworld".toList) (by decide)⟩

/-- The transformation claimed for list items: remove only the leading `-`
(the trimmed line is known to start with one) and surrounding whitespace,
leaving the remainder of the line verbatim. -/
def claimedItemTransform (item : Str) : Str :=
  pyStrip ((pyStrip item).drop 1)

/-- C2 counterexample: for the committed section text `"- foo -"` (reachable,
e.g., from the review text `"MAJOR_ISSUES:\n- foo -"`), the code's
`item.strip('- ').strip()` also removes the TRAILING `-`, producing
`["foo"]`, whereas removing only the leading `-` and surrounding whitespace
would leave `["foo -"]`. -/
theorem parseListItems_counterexample :
    parseListItems ("- foo -".toList) = ["foo".toList] ∧
    claimedItemTransform ("- foo -".toList) = "foo -".toList ∧
    parseListItems ("- foo -".toList) ≠
      [claimedItemTransform ("- foo -".toList)] ∧
    (parseRawSections ("MAJOR_ISSUES:\n- foo -".toList)).major_issues =
      some ("- foo -".toList) ∧
    (parse_review ("MAJOR_ISSUES:\n- foo -".toList)).major_issues =
      some ["foo".toList] := by
  refine ⟨by decide, by decide, by decide, by decide, by decide⟩

/-- C2 amended: for every committed section text under one of the three
list-valued keys, the parser keeps exactly the lines whose trimmed form
starts with `-`, in original order, and each kept line is transformed by
Python `strip('- ').strip()` — i.e. by removing from BOTH ends every run of
`-` and space characters and then trimming whitespace (not merely the single
leading `-`); if no such lines exist the key's value is the empty list. -/
theorem parse_review_list_sections (text : Str) (s : Str) :
    ((parseRawSections text).major_issues = some s →
      (parse_review text).major_issues = some (parseListItems s)) ∧
    ((parseRawSections text).minor_issues = some s →
      (parse_review text).minor_issues = some (parseListItems s)) ∧
    ((parseRawSections text).test_suggestions = some s →
      (parse_review text).test_suggestions = some (parseListItems s)) ∧
    parseListItems s =
      ((splitOnChar '\n' s).filter
        (fun item => strStartsWith (pyStrip item) ['-'])).map
        (fun item => pyStrip (stripSet ['-', ' '] item)) ∧
    (((splitOnChar '\n' s).filter
        (fun item => strStartsWith (pyStrip item) ['-'])) = [] →
      parseListItems s = []) := by
  refine ⟨?_, ?_, ?_, rfl, ?_⟩
  · intro h
    simp [parse_review, h]
  · intro h
    simp [parse_review, h]
  · intro h
    simp [parse_review, h]
  · intro h
    simp [parseListItems, h]

/-- Witness for `parse_review_list_sections` at the review text
`"MAJOR_ISSUES:\n- a"` whose committed MAJOR_ISSUES text is `"- a"`. -/
theorem parse_review_list_sections_witness :
    (parseRawSections ("MAJOR_ISSUES:\n- a".toList)).major_issues =
      some ("- a".toList) ∧
    (parse_review ("MAJOR_ISSUES:\n- a".toList)).major_issues =
      some (parseListItems ("- a".toList)) :=
  ⟨by decide,
   (parse_review_list_sections ("MAJOR_ISSUES:\n- a".toList)
     ("- a".toList)).1 (by decide)⟩
